import Mathlib

/-
Verification of the whatsapp-zip-viewer sources: a shallow embedding of the
timestamp parsers, the archive splitter, the transcript message parser, the
media-type classifier and the lazy media loader, together with theorems about
them.

Conventions of the embedding:
 - JavaScript strings are Lean `String`; per-character work happens on `.data`.
 - JS `Date` values are modelled as an integer count of seconds (local time)
   obtained from the proleptic Gregorian calendar; the `Date(y, m, d, h, mi, s)`
   constructor, including its field normalization (month overflow, day
   overflow, the 0..99 year shift), is `mkDate`.  `getTime` ordering equals
   ordering of this integer (the constant timezone offset cancels).
 - Regular expressions are modelled by a list-of-successes matcher whose
   result order is exactly the backtracking priority order of the JS engine,
   so `exec` is the head of the result list.
 - `async` code of the media loader is modelled as a small-step state machine
   over the cooperative event loop: every `await` boundary is a step.
-/

/-! ### Small JS-style string helpers -/

/-- ASCII lower-casing of a character, as `String.prototype.toLowerCase`
behaves on the ASCII range (the only range exercised by the sources). -/
def charLower (c : Char) : Char :=
  if 65 ≤ c.toNat ∧ c.toNat ≤ 90 then Char.ofNat (c.toNat + 32) else c

/-- JS `s.toLowerCase()` (ASCII range). -/
def lowerStr (s : String) : String := String.mk (s.data.map charLower)

/-- JS `Number(s)` restricted to strings of decimal digits, the only shapes
the sources feed it (regex captures of `\d` runs; `Number("")` is `0`). -/
def jsNumber (s : String) : Int :=
  Int.ofNat (s.data.foldl (fun acc c => acc * 10 + (c.toNat - 48)) 0)

/-- The characters matched by `\s` that can occur in the inputs here. -/
def isJsWS (c : Char) : Bool :=
  c = ' ' ∨ c = '\t' ∨ c = '\n' ∨ c = '\x0D' ∨ c = '\x0B' ∨ c = '\x0C'

/-- JS `s.trim()` (ASCII whitespace range). -/
def jsTrim (s : String) : String :=
  String.mk (((s.data.dropWhile isJsWS).reverse.dropWhile isJsWS).reverse)

def splitCharAux (sep : Char) : List Char → List Char → List (List Char)
  | [], acc => [acc.reverse]
  | c :: rest, acc =>
    if c = sep then acc.reverse :: splitCharAux sep rest []
    else splitCharAux sep rest (c :: acc)

/-- JS `s.split(sep)` for a single-character separator. -/
def splitOnChar (sep : Char) (s : String) : List String :=
  (splitCharAux sep s.data []).map String.mk

def splitLinesAux : List Char → List Char → List (List Char)
  | [], acc => [acc.reverse]
  | c :: rest, acc =>
    if c = '\n' then
      (match acc with
       | '\x0D' :: acc2 => acc2.reverse
       | _ => acc.reverse) :: splitLinesAux rest []
    else splitLinesAux rest (c :: acc)

/-- JS `s.split(/\r?\n/)`. -/
def splitLines (s : String) : List String :=
  (splitLinesAux s.data []).map String.mk

def subAt [DecidableEq α] : List α → List α → Bool
  | _, [] => true
  | [], _ :: _ => false
  | a :: as, b :: bs => if a = b then subAt as bs else false

def containsSubAux (pat : List α) [DecidableEq α] : List α → Bool
  | [] => pat.isEmpty
  | c :: rest => subAt (c :: rest) pat || containsSubAux pat rest

/-- JS `s.includes(pat)`. -/
def containsSub (s pat : String) : Bool := containsSubAux pat.data s.data

/-! ### The JS `Date` constructor as an integer timestamp -/

/-- Days between 1970-01-01 and the civil date `y-m-d` (month `1..12`, day
arbitrary and handled linearly, exactly as the `Date` constructor normalizes
out-of-range days). -/
def daysFromCivil (y m d : Int) : Int :=
  let y1 := if m ≤ 2 then y - 1 else y
  let era := y1.fdiv 400
  let yoe := y1 - era * 400
  let doy := (153 * (m + (if 2 < m then -3 else 9)) + 2).fdiv 5 + d - 1
  let doe := yoe * 365 + yoe.fdiv 4 - yoe.fdiv 100 + doy
  era * 146097 + doe - 719468

/-- `new Date(y, m0, d, h, mi, s).getTime()` in seconds (local clock; the
constant timezone offset is order-irrelevant).  `m0` is the zero-based month
and may overflow into the year, `d`, `h`, `mi`, `s` normalize linearly, and a
year in `0..99` is shifted to `1900..1999`, all as the JS constructor does. -/
def mkDate (y m0 d h mi s : Int) : Int :=
  let y2 := if 0 ≤ y ∧ y ≤ 99 then y + 1900 else y
  let ym := y2 * 12 + m0
  let yy := ym.fdiv 12
  let mm := ym.emod 12 + 1
  (((daysFromCivil yy mm d) * 24 + h) * 60 + mi) * 60 + s

/-- `isValidDate` from `spilter.ts`: a constructed `Date` is invalid exactly
when its time value exceeds the ECMAScript bound of 8.64e15 milliseconds;
every timestamp parsed in this repository is far below the bound. -/
def isValidDate (t : Int) : Bool := t.natAbs ≤ 8640000000000

/-! ### A backtracking regular-expression matcher

A matcher turns a character list into the list of (captures, rest) pairs in
exactly the priority order the JS backtracking engine would try them, so the
first element corresponds to the match `exec` reports. -/

abbrev RxP := List Char → List (List String × List Char)

def rxEps : RxP := fun s => [([], s)]

def rxFail : RxP := fun _ => []

def rxSeq (p q : RxP) : RxP := fun s =>
  (p s).flatMap (fun pr => (q pr.2).map (fun qr => (pr.1 ++ qr.1, qr.2)))

def rxSeqs (ps : List RxP) : RxP := ps.foldr rxSeq rxEps

def rxAlt (p q : RxP) : RxP := fun s => p s ++ q s

def rxAlts (ps : List RxP) : RxP := ps.foldr rxAlt rxFail

/-- A single character satisfying a predicate (character classes, literals). -/
def rxCh (f : Char → Bool) : RxP := fun s =>
  match s with
  | [] => []
  | c :: r => if f c then [([], r)] else []

def rxLit (c : Char) : RxP := rxCh (fun x => x = c)

def rxLitCI (c : Char) : RxP := rxCh (fun x => charLower x = charLower c)

def rxStr (cs : List Char) : RxP := rxSeqs (cs.map rxLit)

def rxStrCI (cs : List Char) : RxP := rxSeqs (cs.map rxLitCI)

/-- Greedy run `f{lo,hi}` (or `f{lo,}` when `hi = none`) over a character
class, longest first, optionally capturing the consumed text. -/
def rxRun (f : Char → Bool) (cap : Bool) (lo : Nat) (hi : Option Nat) : RxP := fun s =>
  let run := (s.takeWhile f).length
  let n := match hi with | some h => min h run | none => run
  if n < lo then []
  else ((List.range (n + 1 - lo)).map (fun i => n - i)).map (fun k =>
    ((if cap then [String.mk (s.take k)] else []), s.drop k))

/-- `(\d{lo,hi})` (capturing) or `\d{lo,hi}` (not). -/
def rxDigits (cap : Bool) (lo hi : Nat) : RxP := rxRun Char.isDigit cap lo (some hi)

/-- `\d+`, not capturing. -/
def rxDigits1 : RxP := rxRun Char.isDigit false 1 none

/-- `\s{lo,}` — `\s*` for `lo = 0`, `\s+` for `lo = 1`. -/
def rxWS (lo : Nat) : RxP := rxRun isJsWS false lo none

/-- `(?: ... )?` — greedy optional, no capture of its own. -/
def rxOpt0 (p : RxP) : RxP := fun s => p s ++ [([], s)]

/-- Optional group contributing exactly one capture; a group that does not
participate captures `undefined`, which every use site treats exactly like
the empty string (`s ? ... : 0`, `if (ampm)`), so absence is rendered `""`. -/
def rxOpt1 (p : RxP) : RxP := fun s => p s ++ [([""], s)]

/-- `( ... )` — capture the text consumed by the body; the capture of the
group precedes the captures of nested groups, as JS numbers them. -/
def rxGroup (p : RxP) : RxP := fun s =>
  (p s).map (fun pr => (String.mk (s.take (s.length - pr.2.length)) :: pr.1, pr.2))

/-- `(.*)` — `.` matches anything but a line terminator. -/
def rxDotStar : RxP :=
  rxRun (fun c => !(c = '\n' ∨ c = '\x0D' ∨ c = '\u2028' ∨ c = '\u2029')) true 0 none

/-- `re.exec(s)` for a `^`-anchored pattern without `$`: captures of the
highest-priority match, if any. -/
def rxMatchPrefix (p : RxP) (s : String) : Option (List String) :=
  ((p s.data).map (·.1)).head?

/-- `re.exec(s)` for a `^ ... $` pattern: the highest-priority parse that
consumes the whole input. -/
def rxMatchFull (p : RxP) (s : String) : Option (List String) :=
  (((p s.data).filter (fun r => r.2.isEmpty)).map (·.1)).head?

/-- `re.exec(s)` for an unanchored pattern without `$`: leftmost match wins,
priority order within a position. -/
def rxSearch (p : RxP) : List Char → Option (List String)
  | [] => ((p []).map (·.1)).head?
  | c :: rest =>
    match ((p (c :: rest)).map (·.1)).head? with
    | some caps => some caps
    | none => rxSearch p rest

/-- `re.exec(s)` for an unanchored pattern ending in `$`. -/
def rxSearchFull (p : RxP) : List Char → Option (List String)
  | [] => (((p []).filter (fun r => r.2.isEmpty)).map (·.1)).head?
  | c :: rest =>
    match (((p (c :: rest)).filter (fun r => r.2.isEmpty)).map (·.1)).head? with
    | some caps => some caps
    | none => rxSearchFull p rest

/-! ### `spilter.ts` — the archive filter/splitter -/

/-- `DEFAULT_MEDIA_EXTS` from `spilter.ts`, verbatim. -/
def DEFAULT_MEDIA_EXTS : List String := [
  "jpg", "jpeg", "png", "gif", "webp",
  "mp4", "mov", "avi", "mkv",
  "ogg", "opus", "mp3", "wav", "m4a",
  "pdf", "doc", "docx", "xls", "xlsx", "ppt", "pptx",
  "heic", "heif",
  "aac"]

/-- `twoDigitYearToFull` from `spilter.ts`. -/
def twoDigitYearToFull (y : String) : Int :=
  let num := jsNumber y
  if num ≥ 70 then 1900 + num else 2000 + num

/-- `inRange` from `spilter.ts`: `t >= start && t <= end` on `getTime`. -/
def inRange (d start stop : Int) : Bool :=
  decide (start ≤ d) && decide (d ≤ stop)

/-- `getExtension` from `spilter.ts`: `/\.([A-Za-z0-9]+)$/.exec(name)`. -/
def getExtension (name : String) : Option String :=
  let pat := rxSeqs [rxLit '.',
    rxRun (fun c => c.isAlpha ∨ c.isDigit) true 1 none]
  match rxSearchFull pat name.data with
  | some [e] => some e
  | _ => none

/-- `^\[(\d{1,2})\/(\d{1,2})\/(\d{2,4})(?:,)?\s+(\d{1,2}):(\d{2})(?::(\d{2}))?\]` -/
def rxChatBracket : RxP := rxSeqs [rxLit '[',
  rxDigits true 1 2, rxLit '/', rxDigits true 1 2, rxLit '/', rxDigits true 2 4,
  rxOpt0 (rxLit ','), rxWS 1,
  rxDigits true 1 2, rxLit ':', rxDigits true 2 2,
  rxOpt1 (rxSeqs [rxLit ':', rxDigits true 2 2]),
  rxLit ']']

/-- `^(\d{1,2})\/(\d{1,2})\/(\d{2,4}),\s+(\d{1,2}):(\d{2})(?::(\d{2}))?` -/
def rxChatDashed : RxP := rxSeqs [
  rxDigits true 1 2, rxLit '/', rxDigits true 1 2, rxLit '/', rxDigits true 2 4,
  rxLit ',', rxWS 1,
  rxDigits true 1 2, rxLit ':', rxDigits true 2 2,
  rxOpt1 (rxSeqs [rxLit ':', rxDigits true 2 2])]

/-- `^(\d{1,2})\/(\d{1,2})\/(\d{2,4}),\s+(\d{1,2}):(\d{2})\s*(AM|PM)` with `/i`. -/
def rxChatAmPm : RxP := rxSeqs [
  rxDigits true 1 2, rxLit '/', rxDigits true 1 2, rxLit '/', rxDigits true 2 4,
  rxLit ',', rxWS 1,
  rxDigits true 1 2, rxLit ':', rxDigits true 2 2,
  rxWS 0,
  rxGroup (rxAlt (rxStrCI "AM".data) (rxStrCI "PM".data))]

/-- `^(\d{1,2})\.(\d{1,2})\.(\d{4}),\s+(\d{1,2}):(\d{2})(?::(\d{2}))?` -/
def rxChatDots : RxP := rxSeqs [
  rxDigits true 1 2, rxLit '.', rxDigits true 1 2, rxLit '.', rxDigits true 4 4,
  rxLit ',', rxWS 1,
  rxDigits true 1 2, rxLit ':', rxDigits true 2 2,
  rxOpt1 (rxSeqs [rxLit ':', rxDigits true 2 2])]

/-- `^(\d{4})-(\d{2})-(\d{2}),\s+(\d{1,2}):(\d{2})(?::(\d{2}))?` -/
def rxChatIsoDash : RxP := rxSeqs [
  rxDigits true 4 4, rxLit '-', rxDigits true 2 2, rxLit '-', rxDigits true 2 2,
  rxLit ',', rxWS 1,
  rxDigits true 1 2, rxLit ':', rxDigits true 2 2,
  rxOpt1 (rxSeqs [rxLit ':', rxDigits true 2 2])]

/-- `^(\d{4})\/(\d{2})\/(\d{2}),\s+(\d{1,2}):(\d{2})(?::(\d{2}))?` -/
def rxChatIsoSlash : RxP := rxSeqs [
  rxDigits true 4 4, rxLit '/', rxDigits true 2 2, rxLit '/', rxDigits true 2 2,
  rxLit ',', rxWS 1,
  rxDigits true 1 2, rxLit ':', rxDigits true 2 2,
  rxOpt1 (rxSeqs [rxLit ':', rxDigits true 2 2])]

/-- One block of `parseTimestampFromChatLine`: if the pattern matches, the
block decides the result (the date, or `null` if invalid) without falling
through; `none` means the pattern did not match and the next block runs. -/
def chatBlock6 (rx : RxP)
    (mk : String → String → String → String → String → String → Int)
    (l : String) : Option (Option Int) :=
  match rxMatchPrefix rx l with
  | some [a, b, c, d, e, f] =>
    some (let date := mk a b c d e f
          if isValidDate date then some date else none)
  | _ => none

/-- Date built by the bracket and plain dashed blocks: day/month/year order,
two-digit years via `twoDigitYearToFull`, optional seconds. -/
def chatDateDMY (d mo y h mi s : String) : Int :=
  let yyyy := if y.length = 2 then twoDigitYearToFull y else jsNumber y
  mkDate yyyy (jsNumber mo - 1) (jsNumber d) (jsNumber h) (jsNumber mi)
    (if s ≠ "" then jsNumber s else 0)

/-- Date built by the AM/PM block: month/day/year order, `hour % 12` plus 12
when the marker tests as PM (`/PM/i`). -/
def chatDateAmPm (mo d y h mi ap : String) : Int :=
  let yyyy := if y.length = 2 then twoDigitYearToFull y else jsNumber y
  let hour := (jsNumber h) % 12 + (if containsSub (lowerStr ap) "pm" then 12 else 0)
  mkDate yyyy (jsNumber mo - 1) (jsNumber d) hour (jsNumber mi) 0

/-- Date built by the dot-separated block: day/month/four-digit year. -/
def chatDateDots (d mo yyyy h mi s : String) : Int :=
  mkDate (jsNumber yyyy) (jsNumber mo - 1) (jsNumber d) (jsNumber h) (jsNumber mi)
    (if s ≠ "" then jsNumber s else 0)

/-- Date built by the two ISO blocks: year/month/day order. -/
def chatDateYMD (yyyy mo d h mi s : String) : Int :=
  mkDate (jsNumber yyyy) (jsNumber mo - 1) (jsNumber d) (jsNumber h) (jsNumber mi)
    (if s ≠ "" then jsNumber s else 0)

/-- `parseTimestampFromChatLine` from `spilter.ts`: trim, require a leading
`[` or digit, then try the six pattern blocks in source order. -/
def parseTimestampFromChatLine (line : String) : Option Int :=
  let l := jsTrim line
  if !(match l.data.head? with
       | some c => c = '[' ∨ c.isDigit
       | none => false) then none
  else
    (chatBlock6 rxChatBracket chatDateDMY l <|>
     chatBlock6 rxChatDashed chatDateDMY l <|>
     chatBlock6 rxChatAmPm chatDateAmPm l <|>
     chatBlock6 rxChatDots chatDateDots l <|>
     chatBlock6 rxChatIsoDash chatDateYMD l <|>
     chatBlock6 rxChatIsoSlash chatDateYMD l).join

/-- The loop body of `filterChatByRange`: walk the lines carrying the current
`keepCurrentBlock` flag. -/
def filterChatAux (start stop : Int) : List String → Bool → List String
  | [], _ => []
  | line :: rest, keep =>
    match parseTimestampFromChatLine line with
    | some ts =>
      let k := inRange ts start stop
      (if k then [line] else []) ++ filterChatAux start stop rest k
    | none => (if keep then [line] else []) ++ filterChatAux start stop rest keep

/-- `filterChatByRange` from `spilter.ts` (`keepCurrentBlock` starts `false`,
kept lines are joined with a newline). -/
def filterChatByRange (chatText : String) (start stop : Int) : String :=
  String.intercalate "\n" (filterChatAux start stop (splitLines chatText) false)

/-! ### `spilter.ts` — media filename timestamps and the media loop -/

/-- `(WhatsApp (Image|Video|Audio|Document))\s+(\d{4})-(\d{2})-(\d{2})\s+at\s+(\d{2})\.(\d{2})\.(\d{2})` with `/i`. -/
def rxMediaWA : RxP := rxSeqs [
  rxGroup (rxSeqs [rxStrCI "WhatsApp".data, rxLit ' ',
    rxGroup (rxAlts [rxStrCI "Image".data, rxStrCI "Video".data,
      rxStrCI "Audio".data, rxStrCI "Document".data])]),
  rxWS 1, rxDigits true 4 4, rxLit '-', rxDigits true 2 2, rxLit '-', rxDigits true 2 2,
  rxWS 1, rxStrCI "at".data, rxWS 1,
  rxDigits true 2 2, rxLit '.', rxDigits true 2 2, rxLit '.', rxDigits true 2 2]

/-- `(\d{4})-(\d{2})-(\d{2})[ _]at[ _]?(\d{2})\.(\d{2})\.(\d{2})` with `/i`. -/
def rxMediaAt1 : RxP := rxSeqs [
  rxDigits true 4 4, rxLit '-', rxDigits true 2 2, rxLit '-', rxDigits true 2 2,
  rxCh (fun c => c = ' ' ∨ c = '_'), rxStrCI "at".data,
  rxOpt0 (rxCh (fun c => c = ' ' ∨ c = '_')),
  rxDigits true 2 2, rxLit '.', rxDigits true 2 2, rxLit '.', rxDigits true 2 2]

/-- `(\d{4})-(\d{2})-(\d{2})[ _](\d{2})\.(\d{2})\.(\d{2})` with `/i`. -/
def rxMediaAt2 : RxP := rxSeqs [
  rxDigits true 4 4, rxLit '-', rxDigits true 2 2, rxLit '-', rxDigits true 2 2,
  rxCh (fun c => c = ' ' ∨ c = '_'),
  rxDigits true 2 2, rxLit '.', rxDigits true 2 2, rxLit '.', rxDigits true 2 2]

/-- `^(IMG|VID|PTT|AUD|DOC)-(\d{4})(\d{2})(\d{2})-WA\d+` with `/i`. -/
def rxMediaDevice : RxP := rxSeqs [
  rxGroup (rxAlts [rxStrCI "IMG".data, rxStrCI "VID".data, rxStrCI "PTT".data,
    rxStrCI "AUD".data, rxStrCI "DOC".data]),
  rxLit '-', rxDigits true 4 4, rxDigits true 2 2, rxDigits true 2 2,
  rxLit '-', rxStrCI "WA".data, rxDigits1]

/-- `(\d{4})-(\d{2})-(\d{2})` -/
def rxMediaDateDashed : RxP := rxSeqs [
  rxDigits true 4 4, rxLit '-', rxDigits true 2 2, rxLit '-', rxDigits true 2 2]

/-- `(\d{4})(\d{2})(\d{2})` -/
def rxMediaDatePlain : RxP := rxSeqs [
  rxDigits true 4 4, rxDigits true 2 2, rxDigits true 2 2]

/-- A date-and-time media block (`yyyy mm dd HH MM SS` captures). -/
def mediaBlockDT (caps : Option (List String)) : Option (Option Int) :=
  match caps with
  | some [yyyy, mm, dd, hh, mi, ss] =>
    some (let d := mkDate (jsNumber yyyy) (jsNumber mm - 1) (jsNumber dd)
            (jsNumber hh) (jsNumber mi) (jsNumber ss)
          if isValidDate d then some d else none)
  | _ => none

/-- A date-only media block (`yyyy mm dd` captures). -/
def mediaBlockD (caps : Option (List String)) : Option (Option Int) :=
  match caps with
  | some [yyyy, mm, dd] =>
    some (let d := mkDate (jsNumber yyyy) (jsNumber mm - 1) (jsNumber dd) 0 0 0
          if isValidDate d then some d else none)
  | _ => none

/-- Drop the two leading captures (full groups) of the WhatsApp-name block so
that it destructures like a date-and-time block. -/
def dropCaps2 (caps : Option (List String)) : Option (List String) :=
  match caps with
  | some (_ :: _ :: rest) => some rest
  | o => o

/-- `parseTimestampFromMediaFilename` from `spilter.ts`: take the basename,
then try the five blocks in source order (the second block tries two patterns
with `||`); each matching block decides the result without falling through. -/
def parseTimestampFromMediaFilename (name : String) : Option Int :=
  let base := (splitOnChar '/' name).getLastD name
  (mediaBlockDT (dropCaps2 (rxSearch rxMediaWA base.data)) <|>
   mediaBlockDT (match rxSearch rxMediaAt1 base.data with
                 | some caps => some caps
                 | none => rxSearch rxMediaAt2 base.data) <|>
   mediaBlockD (dropCaps2 (match rxMatchPrefix rxMediaDevice base with
                           | some (p :: rest) => some (p :: p :: rest)
                           | o => o)) <|>
   mediaBlockD (rxSearch rxMediaDateDashed base.data) <|>
   mediaBlockD (rxSearch rxMediaDatePlain base.data)).join

/-- A non-directory archive entry as the splitter sees it: full path, the
stored modification date (`e.date`, may be absent) and the raw bytes. -/
structure ZipEntry where
  name : String
  dir : Bool
  date : Option Int
  data : List Nat
deriving DecidableEq, Repr

/-- The body of the media loop of `splitZipByTimeRangeAndMedia`: skip
directories and the chat entry, require a known media extension (`mediaSet`
is the lower-cased extension set hoisted out of the loop), derive a
timestamp from the filename with fallback to the stored date (`?? e.date ??
null`), and copy the bytes under the original name when in range. -/
def splitMediaBody (chatName : Option String) (mediaSet : List String)
    (start stop : Int) (e : ZipEntry) : Option (String × List Nat) :=
  if e.dir then none
  else if chatName = some e.name then none
  else
    let isMedia := match getExtension e.name with
      | some ext => mediaSet.contains (lowerStr ext)
      | none => false
    if !isMedia then none
    else
      match (parseTimestampFromMediaFilename e.name).orElse (fun _ => e.date) with
      | none => none
      | some ts => if inRange ts start stop then some (e.name, e.data) else none

/-- The media loop of `splitZipByTimeRangeAndMedia` (the `includeMedia`
branch) over all entries. -/
def splitMediaOutputs (entries : List ZipEntry) (chatName : Option String)
    (mediaExtensions : List String) (start stop : Int) : List (String × List Nat) :=
  entries.filterMap (splitMediaBody chatName (mediaExtensions.map lowerStr) start stop)

/-! ### `MediaLoader.ts` — extension list, media-type classifier -/

namespace MediaLoader

/-- The media-extension list inlined in `MediaLoader.buildMediaIndex`. -/
def buildMediaIndexExts : List String := [
  "jpg", "jpeg", "png", "gif", "webp", "bmp", "heic", "heif", "tgs",
  "mp4", "mov", "avi", "webm", "3gp",
  "mp3", "wav", "ogg", "m4a", "aac", "opus",
  "pdf", "doc", "docx", "xls", "xlsx", "ppt", "pptx"]

inductive MediaType where
  | image | sticker | document | audio | video
deriving DecidableEq, Repr

/-- `filename.split('.').pop()?.toLowerCase()` — the last dot segment,
lower-cased (for a name with no dot this is the whole name). -/
def extOf (filename : String) : String :=
  lowerStr ((splitOnChar '.' filename).getLastD filename)

/-- `MediaLoader.getMediaType`: image extensions first (note that `webp` is
among them), then the sticker refinement, then audio, video, and finally
`document` as the default. -/
def getMediaType (filename : String) : MediaType :=
  let extension := extOf filename
  if ["jpg", "jpeg", "png", "gif", "webp", "bmp", "heic", "heif"].contains extension then
    .image
  else if ["webp", "tgs"].contains extension && containsSub filename "sticker" then
    .sticker
  else if ["mp3", "wav", "ogg", "m4a", "aac"].contains extension then
    .audio
  else if ["mp4", "mov", "avi", "webm", "3gp"].contains extension then
    .video
  else .document

end MediaLoader

namespace Viewer

/-- `getMediaType` from the viewer component: same shape as the loader
version, with `opus` additionally in the audio list. -/
def getMediaType (filename : String) : MediaLoader.MediaType :=
  let extension := MediaLoader.extOf filename
  if ["jpg", "jpeg", "png", "gif", "webp", "bmp", "heic", "heif"].contains extension then
    .image
  else if ["webp", "tgs"].contains extension && containsSub filename "sticker" then
    .sticker
  else if ["mp3", "wav", "ogg", "m4a", "aac", "opus"].contains extension then
    .audio
  else if ["mp4", "mov", "avi", "webm", "3gp"].contains extension then
    .video
  else .document

end Viewer

/-! ### The viewer transcript parser (`parseWhatsAppText`) -/

/-- One parsed transcript message (`WhatsAppMessage`); only the fields the
parser itself writes. -/
structure WhatsAppMessage where
  datetime : Int
  sender : String
  message : String
deriving DecidableEq, Repr

/-- `stripLTR`: `s.replace` of the anchored run of U+200E, U+200F, U+FEFF. -/
def stripLTR (s : String) : String :=
  String.mk (s.data.dropWhile (fun c => c = '\u200E' ∨ c = '\u200F' ∨ c = '\uFEFF'))

/-- `toFourDigitYear` from the viewer parser (pivot 50). -/
def toFourDigitYear (y : String) : Int :=
  if y.length = 2 then
    (if jsNumber y < 50 then 2000 + jsNumber y else 1900 + jsNumber y)
  else jsNumber y

/-- `parseDT` from the viewer parser: split the date on `/` and the time on
`:`, normalize the year, convert a 12-hour time when a meridiem string is
present (absent is rendered `""`). -/
def parseDT (dateStr timeStr ampm : String) : Int :=
  let dparts := splitOnChar '/' dateStr
  let d := jsNumber (dparts.getD 0 "")
  let m := jsNumber (dparts.getD 1 "")
  let yyyy := toFourDigitYear (dparts.getD 2 "")
  let tparts := splitOnChar ':' timeStr
  let hh0 := jsNumber (tparts.getD 0 "")
  let mm := jsNumber (tparts.getD 1 "")
  let ss := if tparts.getD 2 "" ≠ "" then jsNumber (tparts.getD 2 "") else 0
  let hh := if ampm ≠ "" then
      (hh0 % 12 + (if containsSub (lowerStr ampm) "pm" then 12 else 0))
    else hh0
  mkDate yyyy (m - 1) d hh mm ss

/-- `^\[(\d{1,2}\/\d{1,2}\/\d{2,4})\s+(\d{1,2}:\d{2}(?::\d{2})?)\]\s+([^:]+):\s*(.*)$` -/
def rxViewerBracket : RxP := rxSeqs [rxLit '[',
  rxGroup (rxSeqs [rxDigits false 1 2, rxLit '/', rxDigits false 1 2,
    rxLit '/', rxDigits false 2 4]),
  rxWS 1,
  rxGroup (rxSeqs [rxDigits false 1 2, rxLit ':', rxDigits false 2 2,
    rxOpt0 (rxSeqs [rxLit ':', rxDigits false 2 2])]),
  rxLit ']', rxWS 1,
  rxRun (fun c => !(c = ':')) true 1 none,
  rxLit ':', rxWS 0, rxDotStar]

/-- `^(\d{1,2}\/\d{1,2}\/\d{2,4}),\s+(\d{1,2}:\d{2})(?:\s*(AM|PM))?\s*[-–]\s*([^:]+):\s*(.*)$` with `/i`. -/
def rxViewerDashed : RxP := rxSeqs [
  rxGroup (rxSeqs [rxDigits false 1 2, rxLit '/', rxDigits false 1 2,
    rxLit '/', rxDigits false 2 4]),
  rxLit ',', rxWS 1,
  rxGroup (rxSeqs [rxDigits false 1 2, rxLit ':', rxDigits false 2 2]),
  rxOpt1 (rxSeqs [rxWS 0, rxGroup (rxAlt (rxStrCI "AM".data) (rxStrCI "PM".data))]),
  rxWS 0, rxCh (fun c => c = '-' ∨ c = '–'), rxWS 0,
  rxRun (fun c => !(c = ':')) true 1 none,
  rxLit ':', rxWS 0, rxDotStar]

/-- A line that opens a new message record: the bracket pattern first, then
the dashed pattern (both `$`-anchored). -/
def lineToMessage (line : String) : Option WhatsAppMessage :=
  match rxMatchFull rxViewerBracket line with
  | some [dateStr, timeStr, sender, msg] =>
    some ⟨parseDT dateStr timeStr "", jsTrim sender, stripLTR msg⟩
  | _ =>
    match rxMatchFull rxViewerDashed line with
    | some [dateStr, timeStr, ampm, sender, msg] =>
      some ⟨parseDT dateStr timeStr ampm, jsTrim sender, stripLTR msg⟩
    | _ => none

/-- One iteration of the `parseWhatsAppText` loop over a raw line, carrying
the open record and the emitted records. -/
def parseStep (st : Option WhatsAppMessage × List WhatsAppMessage) (raw : String) :
    Option WhatsAppMessage × List WhatsAppMessage :=
  let (current, acc) := st
  if raw = "" then
    (current.map (fun c => { c with message := c.message ++ "\n" }), acc)
  else
    let line := stripLTR raw
    match lineToMessage line with
    | some msg => (some msg, acc ++ current.toList)
    | none =>
      (current.map (fun c =>
        { c with message := c.message ++ (if c.message ≠ "" then "\n" else "") ++ line }), acc)

/-- `parseWhatsAppText` from the viewer component: split into lines, fold the
loop, flush the open record at the end. -/
def parseWhatsAppText (text : String) : List WhatsAppMessage :=
  let st := (splitLines text).foldl parseStep (none, [])
  st.2 ++ st.1.toList

/-! ### `MediaLoader.loadMedia` — the bounded worker pool as a state machine

The loader runs on the single-threaded JS event loop; the only suspension
point of a materialization task is the `await` of the entry bytes inside
`doLoadMedia`, so the cooperative execution is exactly a sequence of two
kinds of atomic steps: a `loadMedia` call, and the resumption of one awaited
extraction (successfully or with an error/absent entry).  Blob URLs and
promises are modelled by opaque numeric ids. -/

namespace MediaLoader

def concurrencyLimit : Nat := 5

/-- A materialization task created by `loadMedia` (the closure `task`),
remembering its filename and the promise it will resolve. -/
structure LoaderTask where
  filename : String
  promiseId : Nat
deriving DecidableEq, Repr

/-- Lookup in a string-keyed JS `Map` modelled as an association list. -/
def alookup (f : String) : List (String × Nat) → Option Nat
  | [] => none
  | p :: rest => if p.1 = f then some p.2 else alookup f rest

/-- `Map.delete`: a JS `Map` holds at most one pair per key, so deletion is
the removal of every pair with that key. -/
def removeKey (f : String) (l : List (String × Nat)) : List (String × Nat) :=
  l.filter (fun p => decide (p.1 ≠ f))

/-- The mutable fields of the `MediaLoader` instance, plus bookkeeping for
the event loop: `running` is the set of tasks currently awaiting their
extraction (its size is what `activeTasks` counts) and `resolvedP` records
each promise resolution (`none` models resolving with `null`). -/
structure LoaderState where
  loadedBlobs : List (String × Nat)
  loadingPromises : List (String × Nat)
  activeTasks : Nat
  taskQueue : List LoaderTask
  running : List LoaderTask
  resolvedP : List (Nat × Option Nat)
  nextId : Nat
deriving DecidableEq, Repr

/-- What a `loadMedia` call hands back synchronously: a cached result or a
(possibly pre-existing) pending promise. -/
inductive LoadCallResult where
  | cached (blobId : Nat)
  | pending (promiseId : Nat)
deriving DecidableEq, Repr

/-- The synchronous body of `loadMedia(filename)`: cached value, else the
already-pending promise, else a fresh promise whose task either starts at
once (`activeTasks < concurrencyLimit`, incrementing the counter before its
first `await`) or is pushed to the end of `taskQueue`. -/
def loadMediaStep (s : LoaderState) (f : String) : LoaderState × LoadCallResult :=
  match alookup f s.loadedBlobs with
  | some b => (s, .cached b)
  | none =>
    match alookup f s.loadingPromises with
    | some p => (s, .pending p)
    | none =>
      let p := s.nextId
      let t : LoaderTask := ⟨f, p⟩
      if s.activeTasks < concurrencyLimit then
        ({ s with loadingPromises := (f, p) :: s.loadingPromises,
                  activeTasks := s.activeTasks + 1,
                  running := t :: s.running,
                  nextId := p + 1 }, .pending p)
      else
        ({ s with loadingPromises := (f, p) :: s.loadingPromises,
                  taskQueue := s.taskQueue ++ [t],
                  nextId := p + 1 }, .pending p)

/-- `processNextTask`: start the queue head when a pool slot is free. -/
def processNextTask (s : LoaderState) : LoaderState :=
  match s.taskQueue with
  | [] => s
  | t :: rest =>
    if s.activeTasks < concurrencyLimit then
      { s with taskQueue := rest,
               activeTasks := s.activeTasks + 1,
               running := t :: s.running }
    else s

/-- Remove the running task for a filename (at most one exists, so removing
every task with that name is its removal). -/
def removeTask (f : String) (ts : List LoaderTask) : List LoaderTask :=
  ts.filter (fun t => decide (t.filename ≠ f))

/-- The resumption of the task for `f` after its awaited extraction ends.
On success (`ok`) the extracted blob is cached and the promise resolves with
it; on an error or a missing entry the `catch`/`null` path resolves the
promise with `null` and caches nothing.  Either way the `finally` block
decrements `activeTasks`, deletes the in-flight map entry and runs
`processNextTask`.  An event for a filename with no running task is a no-op
(no such event can occur). -/
def finishStep (s : LoaderState) (f : String) (ok : Bool) : LoaderState :=
  match (s.running.find? (fun t => decide (t.filename = f))) with
  | none => s
  | some t =>
    let blobId := s.nextId
    processNextTask
      { s with running := removeTask f s.running,
               loadedBlobs := if ok then (f, blobId) :: s.loadedBlobs else s.loadedBlobs,
               resolvedP := (t.promiseId, if ok then some blobId else none) :: s.resolvedP,
               activeTasks := s.activeTasks - 1,
               loadingPromises := removeKey f s.loadingPromises,
               nextId := if ok then blobId + 1 else s.nextId }

/-- An atomic step of the cooperative execution. -/
inductive LoaderEvent where
  | call (f : String)
  | finish (f : String) (ok : Bool)
deriving DecidableEq, Repr

def loaderStep (s : LoaderState) : LoaderEvent → LoaderState
  | .call f => (loadMediaStep s f).1
  | .finish f ok => finishStep s f ok

/-- A freshly constructed `MediaLoader`. -/
def initLoader : LoaderState := ⟨[], [], 0, [], [], [], 0⟩

/-- The state after an arbitrary cooperative execution. -/
def runLoader (evs : List LoaderEvent) : LoaderState :=
  evs.foldl loaderStep initLoader

/-- Filenames with a created but not yet settled task, in order: running
tasks first, then the queue in arrival order. -/
def inflightNames (s : LoaderState) : List String :=
  (s.running ++ s.taskQueue).map (fun t => t.filename)

/-- The inductive invariant of the loader: the pool never exceeds the
ceiling, the counter counts the running tasks, at most one task is in
flight per filename, the in-flight promise map holds exactly the filenames
with a task, and a filename with an in-flight promise is not yet cached. -/
def LoaderInv (s : LoaderState) : Prop :=
  s.activeTasks ≤ concurrencyLimit ∧
  s.activeTasks = s.running.length ∧
  (inflightNames s).Nodup ∧
  (∀ f, (alookup f s.loadingPromises).isSome ↔ f ∈ inflightNames s) ∧
  (∀ f, (alookup f s.loadingPromises).isSome → alookup f s.loadedBlobs = none)

end MediaLoader

/-! ### Spec-side formulations

These definitions follow the wording of the specification, to be compared
with the definitions taken from the source. -/

/-- Modelled from the spec wording of the chat filter: lines before any
timestamp line are dropped; a timestamp line in range is kept together with
every subsequent non-timestamp line up to the next timestamp line; a
timestamp line out of range is dropped together with its block. -/
def specChatFilter (pts : String → Option Int) (inR : Int → Bool) :
    List String → List String
  | [] => []
  | l :: ls =>
    match pts l with
    | none => specChatFilter pts inR ls
    | some t =>
      (if inR t then l :: ls.takeWhile (fun x => (pts x).isNone) else []) ++
        specChatFilter pts inR (ls.dropWhile (fun x => (pts x).isNone))
termination_by ls => ls.length
decreasing_by
  · simp only [List.length_cons]
    exact Nat.lt_succ_of_le (Nat.le_refl _)
  · simp only [List.length_cons]
    exact Nat.lt_succ_of_le (List.dropWhile_suffix _).sublist.length_le

/-- Modelled from the spec wording of the media filter: the timestamp an
entry is judged by — the filename patterns in order, otherwise the stored
modification date. -/
def derivedTimestamp (e : ZipEntry) : Option Int :=
  match parseTimestampFromMediaFilename e.name with
  | some t => some t
  | none => e.date

/-- Modelled from the spec wording: a non-directory, non-transcript entry is
copied exactly when its extension is in the active media-extension set and a
derivable timestamp exists and lies within `[start, stop]`, both ends
included. -/
def specKeepMedia (chatName : Option String) (mediaExtensions : List String)
    (start stop : Int) (e : ZipEntry) : Bool :=
  !e.dir &&
  !(chatName = some e.name : Bool) &&
  (match getExtension e.name with
   | some ext => (mediaExtensions.map lowerStr).contains (lowerStr ext)
   | none => false) &&
  (match derivedTimestamp e with
   | some t => decide (start ≤ t ∧ t ≤ stop)
   | none => false)

/-- Lines joined by inserted line breaks, as the spec words it. -/
def joinNL : List String → String
  | [] => ""
  | [s] => s
  | s :: rest => s ++ "\n" ++ joinNL rest

/-- The default media-extension set as the spec states it: image, video,
audio and document families. -/
def specDefaultMediaSet : Finset String :=
  (["jpg", "jpeg", "png", "gif", "webp", "bmp", "heic", "heif", "tgs"] ++
   ["mp4", "mov", "avi", "webm", "3gp", "mkv"] ++
   ["mp3", "wav", "ogg", "m4a", "aac", "opus"] ++
   ["pdf", "doc", "docx", "xls", "xlsx", "ppt", "pptx"]).toFinset

/-! ### Claims -/

/-- Claim C4: for every two-digit year string, the message parser normalizes
it with pivot 50 (`Number(y) < 50` gives `2000 + Number(y)`, otherwise
`1900 + Number(y)`), so "99" normalizes to 1999 and "05" to 2005, while the
splitter normalization uses pivot 70 (`Number(y) >= 70` gives
`1900 + Number(y)`, otherwise `2000 + Number(y)`). -/
theorem claim_C4 (y : String) (hlen : y.length = 2)
    (_hdig : ∀ c ∈ y.data, c.isDigit) :
    (toFourDigitYear y =
      if jsNumber y < 50 then 2000 + jsNumber y else 1900 + jsNumber y) ∧
    (twoDigitYearToFull y =
      if 70 ≤ jsNumber y then 1900 + jsNumber y else 2000 + jsNumber y) ∧
    toFourDigitYear "99" = 1999 ∧ toFourDigitYear "05" = 2005 := by
  refine ⟨?_, ?_, by decide, by decide⟩
  · simp [toFourDigitYear, hlen]
  · simp [twoDigitYearToFull, ge_iff_le]

theorem claim_C4_witness :
    toFourDigitYear "99" =
      (if jsNumber "99" < 50 then 2000 + jsNumber "99" else 1900 + jsNumber "99") ∧
    twoDigitYearToFull "99" =
      (if 70 ≤ jsNumber "99" then 1900 + jsNumber "99" else 2000 + jsNumber "99") := by
  have h := claim_C4 "99" (by decide) (by decide)
  exact ⟨h.1, h.2.1⟩

/-- Claim C8, counterexample: the claimed default set (with `mkv`, `bmp`,
`tgs`, `webm`, `3gp`) matches neither the index builder list nor the
splitter default list. -/
theorem claim_C8_counterexample :
    ¬ (MediaLoader.buildMediaIndexExts.toFinset = specDefaultMediaSet ∧
       DEFAULT_MEDIA_EXTS.toFinset = specDefaultMediaSet) := by
  decide

/-- Claim C8, amended: the media index builder recognizes the claimed set
minus `mkv`; the splitter default list is the claimed set minus `bmp`,
`tgs`, `webm` and `3gp`. -/
theorem claim_C8_amended_thm :
    MediaLoader.buildMediaIndexExts.toFinset = specDefaultMediaSet \ {"mkv"} ∧
    DEFAULT_MEDIA_EXTS.toFinset =
      specDefaultMediaSet \ (["bmp", "tgs", "webm", "3gp"].toFinset) := by
  decide

/-- Claim C9, counterexample: a `webp` filename containing "sticker" is
classified `image` by both classifiers (the image branch, which contains
`webp`, runs before the sticker branch), not `sticker` as claimed. -/
theorem claim_C9_counterexample :
    MediaLoader.extOf "my-sticker.webp" = "webp" ∧
    containsSub "my-sticker.webp" "sticker" = true ∧
    MediaLoader.getMediaType "my-sticker.webp" = MediaLoader.MediaType.image ∧
    Viewer.getMediaType "my-sticker.webp" = MediaLoader.MediaType.image := by
  decide

/-- Claim C9, amended: only for extension `tgs` does a name containing
"sticker" classify as `sticker`; for `webp` the image branch fires first. -/
theorem claim_C9_amended_thm (name : String)
    (h1 : MediaLoader.extOf name = "tgs")
    (h2 : containsSub name "sticker" = true) :
    MediaLoader.getMediaType name = MediaLoader.MediaType.sticker ∧
    Viewer.getMediaType name = MediaLoader.MediaType.sticker := by
  constructor
  · simp [MediaLoader.getMediaType, h1, h2]
  · simp [Viewer.getMediaType, h1, h2]

theorem claim_C9_amended_thm_witness :
    MediaLoader.getMediaType "my-sticker.tgs" = MediaLoader.MediaType.sticker ∧
    Viewer.getMediaType "my-sticker.tgs" = MediaLoader.MediaType.sticker :=
  claim_C9_amended_thm "my-sticker.tgs" (by decide) (by decide)

/-- Claim C10: the dashed AM/PM pattern block of
`parseTimestampFromChatLine` is unreachable — the plain dashed block matches
every such line first and ignores the meridiem marker, so a PM time is
returned without the 12-hour conversion: "1/5/24, 2:30 PM - Alice: hi"
parses to 02:30 on May 1 (day-first), not to 14:30 under either field
order. -/
theorem claim_C10_thm :
    parseTimestampFromChatLine "1/5/24, 2:30 PM - Alice: hi" =
      some (mkDate 2024 4 1 2 30 0) ∧
    mkDate 2024 4 1 2 30 0 ≠ mkDate 2024 4 1 14 30 0 ∧
    mkDate 2024 4 1 2 30 0 ≠ mkDate 2024 0 5 14 30 0 := by
  decide

/-- The fold of `filterChatByRange` equals the spec-side block filter, up to
the leading lines processed under the incoming `keep` flag. -/
theorem filterChatAux_eq (start stop : Int) (ls : List String) :
    ∀ keep, filterChatAux start stop ls keep =
      (if keep then ls.takeWhile (fun x => (parseTimestampFromChatLine x).isNone) else []) ++
        specChatFilter parseTimestampFromChatLine (fun t => inRange t start stop)
          (ls.dropWhile (fun x => (parseTimestampFromChatLine x).isNone)) := by
  induction ls with
  | nil => intro keep; cases keep <;> simp [filterChatAux, specChatFilter]
  | cons l ls ih =>
    intro keep
    cases h : parseTimestampFromChatLine l with
    | some t =>
      simp only [filterChatAux, h, List.takeWhile, List.dropWhile, Option.isNone_some]
      simp only [specChatFilter, h, ih (inRange t start stop)]
      cases hk : inRange t start stop <;> cases keep <;> simp
    | none =>
      simp only [filterChatAux, h, List.takeWhile, List.dropWhile, Option.isNone_none]
      simp only [ih keep]
      cases keep <;> simp

/-- Leading non-timestamp lines are dropped by the spec-side filter. -/
theorem specChatFilter_dropWhile (pts : String → Option Int) (inR : Int → Bool)
    (ls : List String) :
    specChatFilter pts inR (ls.dropWhile (fun x => (pts x).isNone)) =
      specChatFilter pts inR ls := by
  induction ls with
  | nil => simp
  | cons l ls ih =>
    cases h : pts l with
    | some t => simp [List.dropWhile, h]
    | none =>
      simp only [List.dropWhile, h, Option.isNone_none]
      rw [ih]
      conv_rhs => rw [specChatFilter]
      simp [h]

/-- Claim C1: for every transcript and closed interval, the chat filter
keeps exactly the blocks described by the spec — a timestamp line with
`start ≤ t ≤ stop` together with its following non-timestamp lines, in
order; lines before the first timestamp line and out-of-range blocks are
dropped.  On the three-block example transcript with range
`[2024-01-03, 2024-01-08]`, only the `2024-01-05` block survives. -/
theorem claim_C1 :
    (∀ (chatText : String) (start stop : Int),
      filterChatByRange chatText start stop =
        String.intercalate "\n"
          (specChatFilter parseTimestampFromChatLine (fun t => inRange t start stop)
            (splitLines chatText))) ∧
    filterChatByRange
      "1/1/2024, 10:00 - Alice: happy\ncontinuation A\n5/1/2024, 10:00 - Bob: hello\ncontinuation B\n10/1/2024, 10:00 - Alice: bye"
      (mkDate 2024 0 3 0 0 0) (mkDate 2024 0 8 0 0 0) =
      "5/1/2024, 10:00 - Bob: hello\ncontinuation B" := by
  constructor
  · intro chatText start stop
    unfold filterChatByRange
    rw [filterChatAux_eq]
    rw [specChatFilter_dropWhile]
    simp
  · decide

/-- Each media-loop step keeps an entry exactly as the spec-side predicate
decides. -/
theorem splitMediaBody_eq (chatName : Option String) (exts : List String)
    (start stop : Int) (e : ZipEntry) :
    splitMediaBody chatName (exts.map lowerStr) start stop e =
      if specKeepMedia chatName exts start stop e then some (e.name, e.data)
      else none := by
  unfold splitMediaBody specKeepMedia derivedTimestamp
  cases hdir : e.dir with
  | true => simp
  | false =>
    simp only [Bool.not_true, Bool.not_false, Bool.true_and]
    by_cases hc : chatName = some e.name
    · simp [hc]
    · rw [if_neg hc]
      have hc2 : decide (chatName = some e.name) = false := by
        simpa using hc
      simp only [hc2, Bool.not_false, Bool.true_and]
      cases hext : getExtension e.name with
      | none => simp [hext]
      | some ext =>
        simp only [hext]
        by_cases hmem : (exts.map lowerStr).contains (lowerStr ext) = true
        · simp only [hmem, Bool.not_true, Bool.true_and, if_false]
          cases hp : parseTimestampFromMediaFilename e.name with
          | some t =>
            simp [hp, Option.orElse, inRange, Bool.and_comm]
          | none =>
            cases hd : e.date with
            | none => simp [hp, hd, Option.orElse]
            | some t => simp [hp, hd, Option.orElse, inRange]
        · rw [Bool.not_eq_true] at hmem
          simp only [hmem, Bool.not_false, Bool.false_and, ite_self,
            Bool.false_eq_true, if_false, if_true]

/-- Claim C2: the media loop copies a non-directory, non-transcript entry
byte-for-byte under its original name exactly when its extension is in the
active set and a timestamp derived from the filename patterns (with fallback
to the stored modification date) exists and lies in `[start, stop]`; an
entry with no derivable timestamp is excluded.  In particular, with range
`[2024-01-03, 2024-01-08]`, `IMG-20240105-WA0001.jpg` is retained with its
bytes and `IMG-20240120-WA0002.jpg` is excluded. -/
theorem claim_C2 :
    (∀ (entries : List ZipEntry) (chatName : Option String) (exts : List String)
       (start stop : Int),
      splitMediaOutputs entries chatName exts start stop =
        (entries.filter (specKeepMedia chatName exts start stop)).map
          (fun e => (e.name, e.data))) ∧
    splitMediaOutputs
      [⟨"IMG-20240105-WA0001.jpg", false, none, [10, 20, 30]⟩,
       ⟨"IMG-20240120-WA0002.jpg", false, none, [40, 50]⟩]
      none DEFAULT_MEDIA_EXTS (mkDate 2024 0 3 0 0 0) (mkDate 2024 0 8 0 0 0) =
      [("IMG-20240105-WA0001.jpg", [10, 20, 30])] := by
  constructor
  · intro entries chatName exts start stop
    induction entries with
    | nil => rfl
    | cons e rest ih =>
      simp only [splitMediaOutputs, List.filterMap_cons, List.filter_cons] at ih ⊢
      rw [splitMediaBody_eq]
      cases h : specKeepMedia chatName exts start stop e <;> simp [h, ih]
  · decide

/-- The code appends a continuation with a break only when the accumulated
text is nonempty; that fold equals joining with breaks after dropping the
leading empty pieces. -/
theorem jsAppend_foldl_eq (pieces : List String) :
    ∀ m : String,
      List.foldl (fun a l => a ++ (if a ≠ "" then "\n" else "") ++ l) m pieces =
        joinNL ((m :: pieces).dropWhile (fun x => x == "")) := by
  induction pieces with
  | nil =>
    intro m
    by_cases hm : m = ""
    · simp [hm, joinNL, List.dropWhile]
    · have hb : (m == "") = false := beq_eq_false_iff_ne.mpr hm
      simp [List.foldl, List.dropWhile, hb, joinNL]
  | cons p ps ih =>
    intro m
    by_cases hm : m = ""
    · subst hm
      simp only [List.foldl_cons, ne_eq, not_true_eq_false, if_false,
        String.empty_append]
      rw [ih p]
      simp [List.dropWhile]
    · simp only [List.foldl_cons, ne_eq, hm, not_false_eq_true, if_true]
      rw [ih (m ++ "\n" ++ p)]
      have hmp : m ++ "\n" ++ p ≠ "" := by
        intro hh
        have := congrArg String.data hh
        simp at this
      have hb1 : ((m ++ "\n" ++ p) == "") = false := beq_eq_false_iff_ne.mpr hmp
      have hb2 : (m == "") = false := beq_eq_false_iff_ne.mpr hm
      have hd1 : ((m ++ "\n" ++ p) :: ps).dropWhile (fun x => x == "") =
          (m ++ "\n" ++ p) :: ps := by
        simp [List.dropWhile, hb1]
      have hd2 : (m :: p :: ps).dropWhile (fun x => x == "") = m :: p :: ps := by
        simp [List.dropWhile, hb2]
      rw [hd1, hd2]
      cases ps with
      | nil => simp [joinNL]
      | cons q qs =>
        show joinNL ((m ++ "\n" ++ p) :: q :: qs) = joinNL (m :: p :: q :: qs)
        simp only [joinNL, String.append_assoc]

/-- Folding the parser loop over nonempty non-timestamp lines appends each
(stripped) line to the open record. -/
theorem parseStep_foldConts (conts : List String) :
    ∀ (m : WhatsAppMessage) (acc : List WhatsAppMessage),
      (∀ c ∈ conts, c ≠ "" ∧ lineToMessage (stripLTR c) = none) →
      List.foldl parseStep (some m, acc) conts =
        (some ⟨m.datetime, m.sender,
          List.foldl (fun a l => a ++ (if a ≠ "" then "\n" else "") ++ l)
            m.message (conts.map stripLTR)⟩, acc) := by
  induction conts with
  | nil => intro m acc _; simp
  | cons c cs ih =>
    intro m acc h
    have hc := h c (List.mem_cons_self c cs)
    have hcs : ∀ x ∈ cs, x ≠ "" ∧ lineToMessage (stripLTR x) = none :=
      fun x hx => h x (List.mem_cons_of_mem c hx)
    have hstep : parseStep (some m, acc) c =
        (some ⟨m.datetime, m.sender,
          m.message ++ (if m.message ≠ "" then "\n" else "") ++ stripLTR c⟩, acc) := by
      simp [parseStep, hc.1, hc.2]
    simp only [List.foldl_cons, List.map_cons]
    rw [hstep]
    rw [ih _ acc hcs]

/-- Claim C3, counterexample: a valid dashed timestamp line with an empty
trailing message segment followed by one non-timestamp, non-empty line
yields one record whose text is just that line — not the segment followed by
an inserted line break and the line, as the claim states. -/
theorem claim_C3_counterexample :
    parseWhatsAppText "1/1/2024, 10:00 - Alice:\nhello" =
      [⟨mkDate 2024 0 1 10 0 0, "Alice", "hello"⟩] ∧
    lineToMessage "1/1/2024, 10:00 - Alice:" =
      some ⟨mkDate 2024 0 1 10 0 0, "Alice", ""⟩ ∧
    lineToMessage "hello" = none ∧ ("hello" : String) ≠ "" ∧
    ("hello" : String) ≠ "" ++ "\n" ++ "hello" := by
  decide

/-- Claim C3, amended: a valid timestamp line followed by N non-timestamp,
non-empty lines yields exactly one record whose text is the first line's
message segment and the N lines (each taken after stripping leading
direction-control marks, as the parser stores them) joined by inserted line
breaks — except that no break is inserted while the accumulated text is
still empty, i.e. leading empty pieces are dropped from the join. -/
theorem claim_C3_amended_thm (text l : String) (conts : List String)
    (hsplit : splitLines text = l :: conts)
    (r0 : WhatsAppMessage) (hl : lineToMessage (stripLTR l) = some r0)
    (hlne : l ≠ "")
    (hconts : ∀ c ∈ conts, c ≠ "" ∧ lineToMessage (stripLTR c) = none) :
    parseWhatsAppText text =
      [⟨r0.datetime, r0.sender,
        joinNL ((r0.message :: conts.map stripLTR).dropWhile (fun x => x == ""))⟩] := by
  unfold parseWhatsAppText
  rw [hsplit]
  simp only [List.foldl_cons]
  have h1 : parseStep (none, []) l = (some r0, []) := by
    simp [parseStep, hlne, hl]
  rw [h1, parseStep_foldConts conts r0 [] hconts, jsAppend_foldl_eq]
  simp

theorem claim_C3_amended_thm_witness :
    parseWhatsAppText "1/1/2024, 10:00 - Alice: hi\nworld" =
      [⟨mkDate 2024 0 1 10 0 0, "Alice",
        joinNL ((("hi" : String) :: ["world"].map stripLTR).dropWhile
          (fun x => x == ""))⟩] :=
  claim_C3_amended_thm "1/1/2024, 10:00 - Alice: hi\nworld"
    "1/1/2024, 10:00 - Alice: hi" ["world"] (by decide)
    ⟨mkDate 2024 0 1 10 0 0, "Alice", "hi"⟩ (by decide) (by decide) (by decide)

theorem MediaLoader.alookup_isSome_iff_mem (f : String) (l : List (String × Nat)) :
    (MediaLoader.alookup f l).isSome ↔ f ∈ l.map (fun p => p.1) := by
  induction l with
  | nil => simp [MediaLoader.alookup]
  | cons p rest ih =>
    by_cases h : p.1 = f
    · simp [MediaLoader.alookup, h]
    · simp only [MediaLoader.alookup, h, if_false, List.map_cons, List.mem_cons, ih]
      constructor
      · exact Or.inr
      · rintro (rfl | hm)
        · exact absurd rfl h
        · exact hm

theorem MediaLoader.alookup_removeKey_self (f : String) (l : List (String × Nat)) :
    MediaLoader.alookup f (MediaLoader.removeKey f l) = none := by
  induction l with
  | nil => rfl
  | cons p rest ih =>
    by_cases h : p.1 = f
    · simp [MediaLoader.removeKey, List.filter, h] at ih ⊢
      exact ih
    · simp only [MediaLoader.removeKey, List.filter] at ih ⊢
      simp only [ne_eq, h, not_false_eq_true, decide_True]
      simpa [MediaLoader.alookup, h] using ih

theorem MediaLoader.alookup_removeKey_ne (f g : String) (l : List (String × Nat))
    (h : g ≠ f) :
    MediaLoader.alookup g (MediaLoader.removeKey f l) = MediaLoader.alookup g l := by
  induction l with
  | nil => rfl
  | cons p rest ih =>
    by_cases hp : p.1 = f
    · subst hp
      simp only [MediaLoader.removeKey, List.filter, ne_eq, not_true_eq_false,
        decide_False] at ih ⊢
      rw [ih]
      show alookup g rest = MediaLoader.alookup g (p :: rest)
      simp only [MediaLoader.alookup]
      rw [if_neg (fun hh => h hh.symm)]
    · simp only [MediaLoader.removeKey, List.filter, ne_eq, hp, not_false_eq_true,
        decide_True] at ih ⊢
      by_cases hg : p.1 = g
      · simp [MediaLoader.alookup, hg]
      · simp only [MediaLoader.alookup, hg, if_false]
        exact ih

theorem MediaLoader.namesOf_removeTask (f : String) (ts : List MediaLoader.LoaderTask) :
    (MediaLoader.removeTask f ts).map (fun t => t.filename) =
      (ts.map (fun t => t.filename)).filter (fun n => decide (n ≠ f)) := by
  induction ts with
  | nil => rfl
  | cons t rest ih =>
    by_cases h : t.filename = f
    · simp [MediaLoader.removeTask, List.filter, h] at ih ⊢
      exact ih
    · simp only [MediaLoader.removeTask, List.filter, ne_eq, h, not_false_eq_true,
        decide_True, List.map_cons] at ih ⊢
      rw [ih]

theorem MediaLoader.inv_loadMediaStep (s : MediaLoader.LoaderState) (f : String)
    (hinv : MediaLoader.LoaderInv s) :
    MediaLoader.LoaderInv (MediaLoader.loadMediaStep s f).1 := by
  obtain ⟨ha, hb, hc, hd, he⟩ := hinv
  unfold MediaLoader.loadMediaStep
  cases hcache : MediaLoader.alookup f s.loadedBlobs with
  | some b => exact ⟨ha, hb, hc, hd, he⟩
  | none =>
    cases hpend : MediaLoader.alookup f s.loadingPromises with
    | some p => exact ⟨ha, hb, hc, hd, he⟩
    | none =>
      have hnotin : f ∉ MediaLoader.inflightNames s := by
        intro hmem
        have := (hd f).mpr hmem
        rw [hpend] at this
        simp at this
      by_cases hlt : s.activeTasks < MediaLoader.concurrencyLimit
      · simp only [hlt, if_true]
        refine ⟨hlt, ?_, ?_, ?_, ?_⟩
        · simp [hb]
        · have hinf : MediaLoader.inflightNames
              { s with loadingPromises := (f, s.nextId) :: s.loadingPromises,
                       activeTasks := s.activeTasks + 1,
                       running := ⟨f, s.nextId⟩ :: s.running,
                       nextId := s.nextId + 1 } =
              f :: MediaLoader.inflightNames s := by
            simp [MediaLoader.inflightNames]
          rw [hinf]
          exact List.nodup_cons.mpr ⟨hnotin, hc⟩
        · intro g
          by_cases hg : g = f
          · subst hg
            simp [MediaLoader.alookup, MediaLoader.inflightNames]
          · simp only [MediaLoader.alookup]
            rw [if_neg (fun hh => hg hh.symm)]
            simpa [MediaLoader.inflightNames, hg] using hd g
        · intro g hg
          by_cases hgf : g = f
          · subst hgf; exact hcache
          · have hne : ¬ (f = g) := fun hh => hgf hh.symm
            apply he
            simp only [MediaLoader.alookup] at hg
            rwa [if_neg hne] at hg
      · simp only [hlt, if_false]
        refine ⟨ha, hb, ?_, ?_, ?_⟩
        · have : MediaLoader.inflightNames
              { s with loadingPromises := (f, s.nextId) :: s.loadingPromises,
                       taskQueue := s.taskQueue ++ [⟨f, s.nextId⟩],
                       nextId := s.nextId + 1 } =
              MediaLoader.inflightNames s ++ [f] := by
            simp [MediaLoader.inflightNames]
          rw [this]
          simp only [List.nodup_append, List.nodup_cons, List.not_mem_nil,
            not_false_eq_true, List.nodup_nil, and_true, true_and]
          constructor
          · exact hc
          · intro a hma hmb
            simp at hmb
            subst hmb
            exact hnotin hma
        · intro g
          by_cases hg : g = f
          · subst hg
            simp [MediaLoader.alookup, MediaLoader.inflightNames]
          · simp only [MediaLoader.alookup]
            rw [if_neg (fun hh => hg hh.symm)]
            have : g ∈ MediaLoader.inflightNames
                { s with loadingPromises := (f, s.nextId) :: s.loadingPromises,
                         taskQueue := s.taskQueue ++ [⟨f, s.nextId⟩],
                         nextId := s.nextId + 1 } ↔
                g ∈ MediaLoader.inflightNames s := by
              simp [MediaLoader.inflightNames, hg]
            rw [this]
            exact hd g
        · intro g hg
          by_cases hgf : g = f
          · subst hgf; exact hcache
          · have hne : ¬ (f = g) := fun hh => hgf hh.symm
            apply he
            simp only [MediaLoader.alookup] at hg
            rwa [if_neg hne] at hg

theorem MediaLoader.length_filter_ne_of_nodup (l : List String) (a : String)
    (hn : l.Nodup) (ha : a ∈ l) :
    (l.filter (fun x => decide (x ≠ a))).length = l.length - 1 := by
  induction l with
  | nil => cases ha
  | cons x xs ih =>
    rcases List.nodup_cons.mp hn with ⟨hx, hxs⟩
    by_cases hxa : x = a
    · subst hxa
      have hnotin : ∀ y ∈ xs, (fun z => decide (z ≠ x)) y = true := by
        intro y hy
        simp only [decide_eq_true_eq, ne_eq]
        intro hyx
        exact hx (hyx ▸ hy)
      simp only [List.filter, ne_eq, not_true_eq_false, decide_False]
      rw [List.filter_eq_self.mpr hnotin]
      simp
    · have hax : a ∈ xs := by
        rcases List.mem_cons.mp ha with h1 | h1
        · exact absurd h1.symm hxa
        · exact h1
      have hlen : 1 ≤ xs.length := by
        have := List.ne_nil_of_mem hax
        cases xs with
        | nil => exact absurd rfl this
        | cons _ _ => simp
      simp only [List.filter, ne_eq, hxa, not_false_eq_true, decide_True,
        List.length_cons]
      rw [ih hxs hax]
      omega

theorem MediaLoader.inv_processNextTask (s : MediaLoader.LoaderState)
    (hinv : MediaLoader.LoaderInv s) :
    MediaLoader.LoaderInv (MediaLoader.processNextTask s) := by
  obtain ⟨ha, hb, hc, hd, he⟩ := hinv
  unfold MediaLoader.processNextTask
  cases hq : s.taskQueue with
  | nil => exact ⟨ha, hb, hc, hd, he⟩
  | cons t rest =>
    by_cases hlt : s.activeTasks < MediaLoader.concurrencyLimit
    · simp only [hlt, if_true]
      have hperm : List.Perm (MediaLoader.inflightNames s)
          (MediaLoader.inflightNames
            { s with taskQueue := rest,
                     activeTasks := s.activeTasks + 1,
                     running := t :: s.running }) := by
        simp only [MediaLoader.inflightNames, hq, List.map_append, List.map_cons]
        exact List.perm_middle
      refine ⟨hlt, ?_, ?_, ?_, he⟩
      · simp [hb]
      · exact hperm.nodup_iff.mp hc
      · intro g
        rw [← hperm.mem_iff]
        exact hd g
    · simp only [hlt, if_false]
      exact ⟨ha, hb, hc, hd, he⟩

theorem MediaLoader.inv_finishStep (s : MediaLoader.LoaderState) (f : String) (ok : Bool)
    (hinv : MediaLoader.LoaderInv s) :
    MediaLoader.LoaderInv (MediaLoader.finishStep s f ok) := by
  obtain ⟨ha, hb, hc, hd, he⟩ := hinv
  unfold MediaLoader.finishStep
  cases hfind : s.running.find? (fun t => decide (t.filename = f)) with
  | none => exact ⟨ha, hb, hc, hd, he⟩
  | some t =>
    apply MediaLoader.inv_processNextTask
    have htmem : t ∈ s.running := List.mem_of_find?_eq_some hfind
    have htf : t.filename = f := by simpa using List.find?_some hfind
    have hfmem : f ∈ s.running.map (fun x => x.filename) :=
      htf ▸ List.mem_map_of_mem _ htmem
    have hc' : (s.running.map (fun x => x.filename) ++
        s.taskQueue.map (fun x => x.filename)).Nodup := by
      simpa [MediaLoader.inflightNames, List.map_append] using hc
    obtain ⟨hnr, hnq, hdisj⟩ := List.nodup_append.mp hc'
    refine ⟨?_, ?_, ?_, ?_, ?_⟩
    · exact Nat.le_trans (Nat.sub_le _ _) ha
    · show s.activeTasks - 1 = (MediaLoader.removeTask f s.running).length
      have h1 : (MediaLoader.removeTask f s.running).length =
          ((s.running.map (fun x => x.filename)).filter
            (fun n => decide (n ≠ f))).length := by
        rw [← MediaLoader.namesOf_removeTask]
        simp
      rw [h1, MediaLoader.length_filter_ne_of_nodup _ _ hnr hfmem]
      simp [hb]
    · show (MediaLoader.inflightNames _).Nodup
      have h2 : MediaLoader.inflightNames
          { s with running := MediaLoader.removeTask f s.running,
                   loadedBlobs := if ok then (f, s.nextId) :: s.loadedBlobs else s.loadedBlobs,
                   resolvedP := (t.promiseId, if ok then some s.nextId else none) :: s.resolvedP,
                   activeTasks := s.activeTasks - 1,
                   loadingPromises := MediaLoader.removeKey f s.loadingPromises,
                   nextId := if ok then s.nextId + 1 else s.nextId } =
          (s.running.map (fun x => x.filename)).filter (fun n => decide (n ≠ f)) ++
            s.taskQueue.map (fun x => x.filename) := by
        simp [MediaLoader.inflightNames, MediaLoader.namesOf_removeTask]
      rw [h2]
      exact ((List.filter_sublist _).append_right _).nodup hc'
    · intro g
      by_cases hg : g = f
      · subst hg
        rw [show MediaLoader.alookup g (MediaLoader.removeKey g
            s.loadingPromises) = none from MediaLoader.alookup_removeKey_self g _]
        simp only [Option.isSome_none, Bool.false_eq_true, false_iff]
        intro hmem
        simp only [MediaLoader.inflightNames, List.map_append, List.mem_append,
          MediaLoader.namesOf_removeTask, List.mem_filter, decide_eq_true_eq,
          ne_eq, not_true_eq_false, and_false, false_or] at hmem
        exact hdisj hfmem hmem
      · rw [MediaLoader.alookup_removeKey_ne f g _ hg]
        rw [hd g]
        simp only [MediaLoader.inflightNames, List.map_append, List.mem_append,
          MediaLoader.namesOf_removeTask, List.mem_filter, decide_eq_true_eq, ne_eq, hg,
          not_false_eq_true, and_true]
    · intro g hg
      have hgf : g ≠ f := by
        intro hh
        subst hh
        rw [MediaLoader.alookup_removeKey_self g _] at hg
        simp at hg
      rw [MediaLoader.alookup_removeKey_ne f g _ hgf] at hg
      have hold := he g hg
      cases ok with
      | true =>
        show MediaLoader.alookup g ((f, s.nextId) :: s.loadedBlobs) = none
        simp only [MediaLoader.alookup]
        rw [if_neg (fun hh => hgf hh.symm)]
        exact hold
      | false => exact hold

theorem MediaLoader.inv_initLoader : MediaLoader.LoaderInv MediaLoader.initLoader := by
  refine ⟨by decide, rfl, List.nodup_nil, ?_, ?_⟩
  · intro f
    simp [MediaLoader.alookup, MediaLoader.inflightNames, MediaLoader.initLoader]
  · intro f h
    simp [MediaLoader.alookup, MediaLoader.initLoader] at h

theorem MediaLoader.inv_foldl (evs : List MediaLoader.LoaderEvent) :
    ∀ s, MediaLoader.LoaderInv s →
      MediaLoader.LoaderInv (evs.foldl MediaLoader.loaderStep s) := by
  induction evs with
  | nil => intro s h; exact h
  | cons e rest ih =>
    intro s h
    apply ih
    cases e with
    | call f => exact MediaLoader.inv_loadMediaStep s f h
    | finish f ok => exact MediaLoader.inv_finishStep s f ok h

theorem MediaLoader.inv_runLoader (evs : List MediaLoader.LoaderEvent) :
    MediaLoader.LoaderInv (MediaLoader.runLoader evs) :=
  MediaLoader.inv_foldl evs MediaLoader.initLoader MediaLoader.inv_initLoader

theorem claim_C5 (evs : List MediaLoader.LoaderEvent) (f : String) (p : Nat)
    (hp : MediaLoader.alookup f (MediaLoader.runLoader evs).loadingPromises = some p) :
    MediaLoader.loadMediaStep (MediaLoader.runLoader evs) f =
      (MediaLoader.runLoader evs, MediaLoader.LoadCallResult.pending p) ∧
    (MediaLoader.inflightNames (MediaLoader.runLoader evs)).Nodup := by
  obtain ⟨ha, hb, hc, hd, he⟩ := MediaLoader.inv_runLoader evs
  have hcache : MediaLoader.alookup f (MediaLoader.runLoader evs).loadedBlobs = none :=
    he f (by simp [hp])
  refine ⟨?_, hc⟩
  unfold MediaLoader.loadMediaStep
  rw [hcache, hp]

theorem claim_C6 :
    (∀ evs, (MediaLoader.runLoader evs).activeTasks ≤ MediaLoader.concurrencyLimit) ∧
    (∀ evs, (MediaLoader.runLoader evs).activeTasks =
      (MediaLoader.runLoader evs).running.length) ∧
    MediaLoader.concurrencyLimit = 5 ∧
    (∀ evs (f : String),
      MediaLoader.alookup f (MediaLoader.runLoader evs).loadedBlobs = none →
      MediaLoader.alookup f (MediaLoader.runLoader evs).loadingPromises = none →
      (MediaLoader.runLoader evs).activeTasks = MediaLoader.concurrencyLimit →
      (MediaLoader.loadMediaStep (MediaLoader.runLoader evs) f).1.taskQueue =
        (MediaLoader.runLoader evs).taskQueue ++
          [⟨f, (MediaLoader.runLoader evs).nextId⟩]) ∧
    (∀ evs (f : String) (ok : Bool) (t : MediaLoader.LoaderTask)
       (rest : List MediaLoader.LoaderTask),
      (MediaLoader.runLoader evs).taskQueue = t :: rest →
      ((MediaLoader.runLoader evs).running.find?
        (fun x => decide (x.filename = f))).isSome →
      (MediaLoader.finishStep (MediaLoader.runLoader evs) f ok).taskQueue = rest ∧
      t ∈ (MediaLoader.finishStep (MediaLoader.runLoader evs) f ok).running) := by
  refine ⟨fun evs => (MediaLoader.inv_runLoader evs).1,
          fun evs => (MediaLoader.inv_runLoader evs).2.1, rfl, ?_, ?_⟩
  · intro evs f hcache hpend hfull
    unfold MediaLoader.loadMediaStep
    rw [hcache, hpend]
    simp [hfull]
  · intro evs f ok t rest hq hfindsome
    obtain ⟨t', hfind⟩ := Option.isSome_iff_exists.mp hfindsome
    have ha := (MediaLoader.inv_runLoader evs).1
    unfold MediaLoader.finishStep
    rw [hfind]
    unfold MediaLoader.processNextTask
    simp only [hq]
    have hlt : (MediaLoader.runLoader evs).activeTasks - 1 <
        MediaLoader.concurrencyLimit := by
      have h5 : MediaLoader.concurrencyLimit = 5 := rfl
      omega
    simp only [hlt, if_true]
    exact ⟨trivial, List.mem_cons_self _ _⟩

theorem claim_C7 (evs : List MediaLoader.LoaderEvent) (f : String)
    (t : MediaLoader.LoaderTask)
    (hfind : (MediaLoader.runLoader evs).running.find?
      (fun x => decide (x.filename = f)) = some t) :
    (t.promiseId, (none : Option Nat)) ∈
      (MediaLoader.finishStep (MediaLoader.runLoader evs) f false).resolvedP ∧
    MediaLoader.alookup f
      (MediaLoader.finishStep (MediaLoader.runLoader evs) f false).loadingPromises = none ∧
    ((MediaLoader.runLoader evs).taskQueue = [] →
      (MediaLoader.finishStep (MediaLoader.runLoader evs) f false).activeTasks =
        (MediaLoader.runLoader evs).activeTasks - 1 ∧
      (MediaLoader.finishStep (MediaLoader.runLoader evs) f false).taskQueue = []) ∧
    (∀ (q : MediaLoader.LoaderTask) (qrest : List MediaLoader.LoaderTask),
      (MediaLoader.runLoader evs).taskQueue = q :: qrest →
      (MediaLoader.finishStep (MediaLoader.runLoader evs) f false).activeTasks =
        ((MediaLoader.runLoader evs).activeTasks - 1) + 1 ∧
      (MediaLoader.finishStep (MediaLoader.runLoader evs) f false).taskQueue = qrest ∧
      q ∈ (MediaLoader.finishStep (MediaLoader.runLoader evs) f false).running) ∧
    (∀ g, g ≠ f →
      MediaLoader.alookup g
        (MediaLoader.finishStep (MediaLoader.runLoader evs) f false).loadingPromises =
        MediaLoader.alookup g (MediaLoader.runLoader evs).loadingPromises ∧
      MediaLoader.alookup g
        (MediaLoader.finishStep (MediaLoader.runLoader evs) f false).loadedBlobs =
        MediaLoader.alookup g (MediaLoader.runLoader evs).loadedBlobs) ∧
    (MediaLoader.finishStep (MediaLoader.runLoader evs) f false).loadedBlobs =
      (MediaLoader.runLoader evs).loadedBlobs := by
  have ha := (MediaLoader.inv_runLoader evs).1
  unfold MediaLoader.finishStep
  rw [hfind]
  unfold MediaLoader.processNextTask
  cases hq : (MediaLoader.runLoader evs).taskQueue with
  | nil =>
    refine ⟨List.mem_cons_self _ _, MediaLoader.alookup_removeKey_self f _, ?_, ?_, ?_, rfl⟩
    · intro _
      exact ⟨by trivial, by trivial⟩
    · intro q qrest hcontra
      exact absurd hcontra (by simp)
    · intro g hg
      exact ⟨MediaLoader.alookup_removeKey_ne f g _ hg, rfl⟩
  | cons q qrest =>
    have hlt : (MediaLoader.runLoader evs).activeTasks - 1 <
        MediaLoader.concurrencyLimit := by
      have h5 : MediaLoader.concurrencyLimit = 5 := rfl
      omega
    simp only [hlt, if_true]
    refine ⟨List.mem_cons_self _ _, MediaLoader.alookup_removeKey_self f _, ?_, ?_, ?_, rfl⟩
    · intro hcontra
      exact absurd hcontra (by simp)
    · intro q' qrest' hq'
      cases hq'
      exact ⟨by trivial, by trivial, List.mem_cons_self _ _⟩
    · intro g hg
      exact ⟨MediaLoader.alookup_removeKey_ne f g _ hg, rfl⟩

theorem claim_C5_witness :
    MediaLoader.loadMediaStep
      (MediaLoader.runLoader [MediaLoader.LoaderEvent.call "a"]) "a" =
      (MediaLoader.runLoader [MediaLoader.LoaderEvent.call "a"],
       MediaLoader.LoadCallResult.pending 0) ∧
    (MediaLoader.inflightNames
      (MediaLoader.runLoader [MediaLoader.LoaderEvent.call "a"])).Nodup :=
  claim_C5 [MediaLoader.LoaderEvent.call "a"] "a" 0 (by decide)

theorem claim_C6_witness :
    (MediaLoader.runLoader [MediaLoader.LoaderEvent.call "a",
      MediaLoader.LoaderEvent.call "b", MediaLoader.LoaderEvent.call "c",
      MediaLoader.LoaderEvent.call "d", MediaLoader.LoaderEvent.call "e",
      MediaLoader.LoaderEvent.call "f"]).activeTasks ≤
      MediaLoader.concurrencyLimit ∧
    (MediaLoader.loadMediaStep (MediaLoader.runLoader
      [MediaLoader.LoaderEvent.call "a", MediaLoader.LoaderEvent.call "b",
       MediaLoader.LoaderEvent.call "c", MediaLoader.LoaderEvent.call "d",
       MediaLoader.LoaderEvent.call "e"]) "f").1.taskQueue =
      (MediaLoader.runLoader
        [MediaLoader.LoaderEvent.call "a", MediaLoader.LoaderEvent.call "b",
         MediaLoader.LoaderEvent.call "c", MediaLoader.LoaderEvent.call "d",
         MediaLoader.LoaderEvent.call "e"]).taskQueue ++
        [⟨"f", (MediaLoader.runLoader
          [MediaLoader.LoaderEvent.call "a", MediaLoader.LoaderEvent.call "b",
           MediaLoader.LoaderEvent.call "c", MediaLoader.LoaderEvent.call "d",
           MediaLoader.LoaderEvent.call "e"]).nextId⟩] ∧
    ((MediaLoader.finishStep (MediaLoader.runLoader
      [MediaLoader.LoaderEvent.call "a", MediaLoader.LoaderEvent.call "b",
       MediaLoader.LoaderEvent.call "c", MediaLoader.LoaderEvent.call "d",
       MediaLoader.LoaderEvent.call "e", MediaLoader.LoaderEvent.call "f"])
      "a" true).taskQueue = [] ∧
     (⟨"f", 5⟩ : MediaLoader.LoaderTask) ∈
      (MediaLoader.finishStep (MediaLoader.runLoader
        [MediaLoader.LoaderEvent.call "a", MediaLoader.LoaderEvent.call "b",
         MediaLoader.LoaderEvent.call "c", MediaLoader.LoaderEvent.call "d",
         MediaLoader.LoaderEvent.call "e", MediaLoader.LoaderEvent.call "f"])
        "a" true).running) := by
  refine ⟨claim_C6.1 _, claim_C6.2.2.2.1 _ "f" (by decide) (by decide) (by decide), ?_⟩
  exact claim_C6.2.2.2.2 _ "a" true ⟨"f", 5⟩ [] (by decide) (by decide)

theorem claim_C7_witness :
    (0, (none : Option Nat)) ∈
      (MediaLoader.finishStep
        (MediaLoader.runLoader [MediaLoader.LoaderEvent.call "a"]) "a" false).resolvedP ∧
    MediaLoader.alookup "a"
      (MediaLoader.finishStep
        (MediaLoader.runLoader [MediaLoader.LoaderEvent.call "a"]) "a" false).loadingPromises =
      none := by
  have h := claim_C7 [MediaLoader.LoaderEvent.call "a"] "a" ⟨"a", 0⟩ (by decide)
  exact ⟨h.1, h.2.1⟩
